import Mathlib

/-!
Verification of the ent schema-to-code generation pipeline.

This file embeds, as Lean definitions, the behaviour of the code emitted by
the SQL decode templates (`dialect/sql/decode/one` and
`dialect/sql/decode/many` in `entc/gen/template/dialect/sql/decode.tmpl`),
and the supporting command-line logic of `entc/cmd/entc/entc.go`
(`idType.Set`, `loadTemplate`, and the `init` command's argument validator).

The decode templates emit, per entity, a `FromRows` method that scans one
row into a scratch struct (identifier first, then the fields in declared
order) and then assigns each scanned value to the destination record
according to the field's flags (JSON / nillable / time).  We model scanned
column values, destination field slots and the per-field assignment logic
directly from the template text, and prove the spec's claims about them.
-/

namespace Ent

/-- A logical value carried by a column or held by a decoded field. -/
inductive Val where
  | int (n : Int)
  | str (s : String)
  | time (t : Int)
  | bool (b : Bool)
  deriving DecidableEq, Repr

/-- A value as it sits in the scratch scan struct emitted by the template:
`raw` is a byte buffer (the scan target of a JSON field), `val` is a value
scanned directly (the identifier column, and a nillable time field), and
`null` is a `sql.NullXxx` wrapper holding a validity flag and a payload
(nillable non-time fields and plain fields). -/
inductive Scanned where
  | raw (bs : List Nat)
  | val (v : Val)
  | null (valid : Bool) (v : Val)
  deriving DecidableEq, Repr

/-- A field descriptor: the template consults the field's name and its
`IsJSON` / `Nillable` / `IsTime` predicates; `zero` is the Go zero value
of the field's logical type (used for the fresh destination record). -/
structure Field where
  name : String
  isJSON : Bool
  nillable : Bool
  isTime : Bool
  zero : Val
  deriving DecidableEq, Repr

/-- An entity descriptor: name, whether the identifier's logical type is
string (`$.ID.IsString`), and the fields in declared order. -/
structure Entity where
  name : String
  idIsString : Bool
  fields : List Field
  deriving DecidableEq, Repr

/-- A destination field slot of the generated record: nillable fields are
pointers (`opt`), everything else holds a value in place (`plain`). -/
inductive FieldDest where
  | opt (v : Option Val)
  | plain (v : Val)
  deriving DecidableEq, Repr

/-- The destination record mutated by the generated `FromRows`. -/
structure Record where
  id : Val
  fields : List FieldDest
  deriving DecidableEq, Repr

/-- Go zero value of a destination field slot of a fresh record
(`&Entity{}`): nil pointer for nillable fields, the type's zero value
otherwise. -/
def zeroDest (f : Field) : FieldDest :=
  if f.isJSON then .plain f.zero
  else if f.nillable then .opt none
  else .plain f.zero

/-- A fresh `&Entity{}` record, as allocated by the generated
collection decode before each per-row call. -/
def zeroRecord (e : Entity) : Record :=
  { id := if e.idIsString then Val.str "" else Val.int 0
    fields := e.fields.map zeroDest }

/-- A `json.Unmarshal` oracle: maps a byte buffer to a parsed value or a
parse failure. -/
abbrev Parser := List Nat → Except String Val

/-! ### The emitted scan call

The template emits `rows.Scan(&vX.ID, &vX.F1, ..., &vX.Fn)`: the address
of the identifier slot first, then one address per field, ranging over
`$.Fields` in declared order. -/

/-- One argument of the emitted `rows.Scan` call. -/
inductive ScanArg where
  | id
  | field (name : String)
  deriving DecidableEq, Repr

/-- The arguments the template's `range` over `$.Fields` contributes to the
scan call, in declared order. -/
def scanArgsFields : List Field → List ScanArg
  | [] => []
  | f :: fs => .field f.name :: scanArgsFields fs

/-- The full argument list of the emitted `rows.Scan` call: the identifier
slot first, then the field slots. -/
def emitScanArgs (e : Entity) : List ScanArg :=
  .id :: scanArgsFields e.fields

/-! ### Row shape

`rows.Scan` fails (before any assignment to the receiver happens) unless
the row supplies exactly one column per scan argument and each column
converts to its scratch-struct slot.  The scratch struct declares the
identifier slot as `int` when the logical identifier type is string, as
the identifier type itself otherwise, and each field slot as the field's
`NullType`. -/

/-- Whether a scanned identifier column fits the scratch struct's ID slot:
a direct value, and necessarily an integer when the logical identifier
type is string (the slot is declared `int`). -/
def idShapeOK (isStr : Bool) : Scanned → Bool
  | .val v =>
    if isStr then
      match v with
      | .int _ => true
      | _ => false
    else true
  | _ => false

/-- Whether a scanned column fits a field's `NullType` slot: a raw buffer
for JSON fields, a direct value for nillable time fields, and a nullable
wrapper for every other field. -/
def fieldShapeOK (f : Field) : Scanned → Bool
  | .raw _ => f.isJSON
  | .val _ => !f.isJSON && (f.nillable && f.isTime)
  | .null _ _ => !f.isJSON && !(f.nillable && f.isTime)

/-- Whether a row's field columns fit the fields' slots, pointwise (and in
particular have the same length). -/
def fieldShapes : List Field → List Scanned → Bool
  | [], [] => true
  | f :: fs, s :: ss => fieldShapeOK f s && fieldShapes fs ss
  | _, _ => false

/-- Whether a whole row fits the emitted scan call. -/
def shapesOK (e : Entity) : List Scanned → Bool
  | [] => false
  | s :: ss => idShapeOK e.idIsString s && fieldShapes e.fields ss

/-- The error `FromRows` returns when `rows.Scan` itself fails. -/
def scanErrMsg : String := "sql: Scan error"

/-! ### Per-field assignment

After a successful scan the template assigns the identifier
(`strconv.Itoa` conversion when the logical identifier type is string),
then ranges over the fields: JSON fields unmarshal a non-empty buffer and
report `unmarshal field <name>: <err>` on parse failure; nillable time
fields take the address of the scanned value unconditionally; other
nillable fields copy the payload only when the wrapper is valid; plain
fields extract the payload with no validity branch. -/

/-- Identifier assignment: `strconv.Itoa(vX.ID)` when `$.ID.IsString`,
`vX.ID` unchanged otherwise. -/
def decodeId (isStr : Bool) : Scanned → Val
  | .val (.int n) => if isStr then .str (toString n) else .int n
  | .val v => v
  | _ => .int 0

/-- Assignment of one scanned field value to its destination slot,
following the template's branch structure
(`if IsJSON / else if Nillable (if IsTime / else) / else`).
Shapes not producible by a successful scan leave the slot unchanged. -/
def decodeField (p : Parser) (f : Field) (s : Scanned) (d : FieldDest) :
    Except String FieldDest :=
  if f.isJSON then
    match s with
    | .raw value =>
      if value.length > 0 then
        match p value with
        | .ok v => .ok (.plain v)
        | .error e => .error ("unmarshal field " ++ f.name ++ ": " ++ e)
      else .ok d
    | _ => .ok d
  else if f.nillable then
    if f.isTime then
      match s with
      | .val v => .ok (.opt (some v))
      | _ => .ok d
    else
      match s with
      | .null valid v => if valid then .ok (.opt (some v)) else .ok d
      | _ => .ok d
  else
    match s with
    | .null _ v => .ok (.plain v)
    | _ => .ok d

/-- The template's `range` over the fields: assign each field in declared
order; the first failing assignment returns its error immediately, leaving
the failing slot and every later slot unchanged. -/
def decodeFields (p : Parser) :
    List Field → List Scanned → List FieldDest → List FieldDest × Option String
  | [], _, ds => (ds, none)
  | _ :: _, [], ds => (ds, none)
  | _ :: _, _ :: _, [] => ([], none)
  | f :: fs, s :: ss, d :: ds =>
    match decodeField p f s d with
    | .error e => (d :: ds, some e)
    | .ok d1 =>
      let r := decodeFields p fs ss ds
      (d1 :: r.1, r.2)

/-- The generated single-record `FromRows`: scan the row (a failure leaves
the receiver untouched), assign the identifier, then assign the fields in
declared order, stopping at the first failure.  Returns the receiver's
final state together with the returned error, if any. -/
def fromRowsOne (p : Parser) (e : Entity) (row : List Scanned) (r : Record) :
    Record × Option String :=
  match row with
  | [] => (r, some scanErrMsg)
  | s0 :: rest =>
    if idShapeOK e.idIsString s0 && fieldShapes e.fields rest then
      let fr := decodeFields p e.fields rest r.fields
      ({ id := decodeId e.idIsString s0, fields := fr.1 }, fr.2)
    else (r, some scanErrMsg)

/-- The generated collection `FromRows`: for each remaining row, decode a
fresh `&Entity{}` record and append it to the receiver; the first per-row
failure is returned immediately. -/
def fromRowsMany (p : Parser) (e : Entity) :
    List (List Scanned) → List Record → List Record × Option String
  | [], acc => (acc, none)
  | row :: rest, acc =>
    match fromRowsOne p e row (zeroRecord e) with
    | (r, none) => fromRowsMany p e rest (acc ++ [r])
    | (_, some err) => (acc, some err)

/-! ### Helper lemmas -/

lemma scanArgsFields_eq_map (fs : List Field) :
    scanArgsFields fs = fs.map (fun f => ScanArg.field f.name) := by
  induction fs with
  | nil => rfl
  | cons f fs ih => simp [scanArgsFields, ih]

lemma fieldShapes_length {fs : List Field} {ss : List Scanned}
    (h : fieldShapes fs ss = true) : ss.length = fs.length := by
  induction fs generalizing ss with
  | nil => cases ss with
    | nil => rfl
    | cons s ss => simp [fieldShapes] at h
  | cons f fs ih =>
    cases ss with
    | nil => simp [fieldShapes] at h
    | cons s ss =>
      simp [fieldShapes] at h
      simp [ih h.2]

lemma shapesOK_length {e : Entity} {row : List Scanned}
    (h : shapesOK e row = true) : row.length = 1 + e.fields.length := by
  cases row with
  | nil => simp [shapesOK] at h
  | cons s ss =>
    simp [shapesOK] at h
    have := fieldShapes_length h.2
    simp [this, Nat.add_comm]

/-! ### Claims about the single-record scan -/

/-- C1: the decode-one template emits a scan call whose argument list has
exactly `1 + len(fields)` entries, ordered identifier first then the
fields in declared order; and the generated `FromRows` fails (leaving the
receiver untouched) on any row that does not carry exactly
`1 + len(fields)` columns. -/
theorem decode_one_scan_order (e : Entity) :
    (emitScanArgs e).length = 1 + e.fields.length ∧
    emitScanArgs e = ScanArg.id :: e.fields.map (fun f => ScanArg.field f.name) ∧
    ∀ (p : Parser) (row : List Scanned) (r : Record),
      row.length ≠ 1 + e.fields.length →
      fromRowsOne p e row r = (r, some scanErrMsg) := by
  refine ⟨?_, ?_, ?_⟩
  · simp [emitScanArgs, scanArgsFields_eq_map, Nat.add_comm]
  · simp [emitScanArgs, scanArgsFields_eq_map]
  · intro p row r hlen
    cases row with
    | nil => rfl
    | cons s0 rest =>
      have hshape : (idShapeOK e.idIsString s0 && fieldShapes e.fields rest) = false := by
        by_contra hc
        have hb : (idShapeOK e.idIsString s0 && fieldShapes e.fields rest) = true := by
          revert hc
          cases idShapeOK e.idIsString s0 && fieldShapes e.fields rest <;> simp
        have : shapesOK e (s0 :: rest) = true := by
          simpa [shapesOK] using hb
        exact hlen (shapesOK_length this)
      simp [fromRowsOne, hshape]

/-- Concrete witness entity: a `User` with an `int` identifier, a plain
`age` field and a JSON `data` field. -/
def fAge : Field :=
  { name := "age", isJSON := false, nillable := false, isTime := false, zero := .int 0 }

def fData : Field :=
  { name := "data", isJSON := true, nillable := false, isTime := false, zero := .str "" }

def fNick : Field :=
  { name := "nickname", isJSON := false, nillable := true, isTime := false, zero := .str "" }

def fUpdated : Field :=
  { name := "updated_at", isJSON := false, nillable := true, isTime := true, zero := .time 0 }

def eUser : Entity :=
  { name := "User", idIsString := false, fields := [fAge, fData] }

/-- A `json.Unmarshal` oracle for witnesses: decimal digit strings parse
to their integer value, everything else fails. -/
def pDigits : Parser := fun bs =>
  if bs.length > 0 && bs.all (fun b => 48 ≤ b && b ≤ 57) then
    .ok (.int (bs.foldl (fun a b => a * 10 + (Int.ofNat b - 48)) 0))
  else .error "invalid character"

theorem decode_one_scan_order_witness :
    fromRowsOne pDigits eUser [Scanned.val (Val.int 1)] (zeroRecord eUser) =
      (zeroRecord eUser, some scanErrMsg) :=
  (decode_one_scan_order eUser).2.2 pDigits [Scanned.val (Val.int 1)]
    (zeroRecord eUser) (by decide)

/-- How `fromRowsOne` unfolds on a row that passes the scan. -/
lemma fromRowsOne_cons {e : Entity} {s0 : Scanned} {rest : List Scanned}
    (p : Parser) (r : Record) (h : shapesOK e (s0 :: rest) = true) :
    fromRowsOne p e (s0 :: rest) r =
      ({ id := decodeId e.idIsString s0
         fields := (decodeFields p e.fields rest r.fields).1 },
       (decodeFields p e.fields rest r.fields).2) := by
  simp [shapesOK] at h
  simp [fromRowsOne, h.1, h.2]

/-- C2: the generated decode of a JSON field scans a raw byte buffer; an
empty buffer leaves the destination slot untouched (at its zero value on a
fresh record) and raises no error; a non-empty buffer that fails to parse
returns an error wrapping the parse failure and naming the field; a buffer
that parses assigns the unmarshaled value. -/
theorem decode_json_field (p : Parser) (f : Field) (d : FieldDest)
    (bs : List Nat) (hj : f.isJSON = true) :
    (bs = [] → decodeField p f (.raw bs) d = .ok d) ∧
    (∀ e, bs ≠ [] → p bs = .error e →
      decodeField p f (.raw bs) d =
        .error ("unmarshal field " ++ f.name ++ ": " ++ e)) ∧
    (∀ v, bs ≠ [] → p bs = .ok v →
      decodeField p f (.raw bs) d = .ok (.plain v)) := by
  refine ⟨?_, ?_, ?_⟩
  · intro hbs
    subst hbs
    simp [decodeField, hj]
  · intro e hbs hp
    have hlen : bs.length > 0 := List.length_pos.mpr hbs
    simp [decodeField, hj, hlen, hp]
  · intro v hbs hp
    have hlen : bs.length > 0 := List.length_pos.mpr hbs
    simp [decodeField, hj, hlen, hp]

theorem decode_json_field_witness :
    decodeField pDigits fData (.raw [52, 50]) (zeroDest fData) =
      .ok (.plain (.int 42)) :=
  (decode_json_field pDigits fData (zeroDest fData) [52, 50] (by decide)).2.2
    (.int 42) (by decide) (by rfl)

/-- C4: when the logical identifier type is string, the scan accepts only
an integer identifier column and assigns its decimal string form
(a scanned `42` becomes `"42"`); for any other identifier type the scanned
value is assigned unchanged — and the identifier slot of the record
produced by `fromRowsOne` is exactly this conversion of the row's first
column. -/
theorem decode_id_conversion :
    (∀ s, idShapeOK true s = true → ∃ n : Int, s = .val (.int n)) ∧
    (∀ n : Int, decodeId true (.val (.int n)) = .str (toString n)) ∧
    (∀ v : Val, decodeId false (.val v) = v) ∧
    decodeId true (.val (.int 42)) = .str "42" ∧
    decodeId false (.val (.int 42)) = .int 42 ∧
    (∀ (p : Parser) (e : Entity) (s0 : Scanned) (rest : List Scanned)
       (r : Record), shapesOK e (s0 :: rest) = true →
       ((fromRowsOne p e (s0 :: rest) r).1).id = decodeId e.idIsString s0) := by
  refine ⟨?_, ?_, ?_, by decide, by decide, ?_⟩
  · intro s hs
    cases s with
    | val v =>
      cases v with
      | int n => exact ⟨n, rfl⟩
      | str s => simp [idShapeOK] at hs
      | time t => simp [idShapeOK] at hs
      | bool b => simp [idShapeOK] at hs
    | raw bs => simp [idShapeOK] at hs
    | null valid v => simp [idShapeOK] at hs
  · intro n
    rfl
  · intro v
    cases v <;> rfl
  · intro p e s0 rest r h
    rw [fromRowsOne_cons p r h]

def eBlob : Entity := { name := "Blob", idIsString := true, fields := [] }

theorem decode_id_conversion_witness :
    (∃ n : Int, Scanned.val (Val.int 42) = Scanned.val (Val.int n)) ∧
    ((fromRowsOne pDigits eBlob [Scanned.val (Val.int 42)]
        (zeroRecord eBlob)).1).id = decodeId true (.val (.int 42)) :=
  ⟨decode_id_conversion.1 (.val (.int 42)) (by decide),
   decode_id_conversion.2.2.2.2.2 pDigits eBlob (.val (.int 42)) []
     (zeroRecord eBlob) (by decide)⟩

/-- C5: a nillable non-time field scans into a nullable wrapper; an
invalid wrapper leaves the destination slot untouched (on a fresh record,
the nil pointer), and a valid wrapper allocates and copies the payload
across unchanged. -/
theorem decode_nillable_roundtrip (p : Parser) (f : Field) (d : FieldDest)
    (v : Val) (hn : f.nillable = true) (hj : f.isJSON = false)
    (ht : f.isTime = false) :
    zeroDest f = .opt none ∧
    decodeField p f (.null false v) d = .ok d ∧
    decodeField p f (.null false v) (zeroDest f) = .ok (.opt none) ∧
    decodeField p f (.null true v) d = .ok (.opt (some v)) := by
  refine ⟨?_, ?_, ?_, ?_⟩ <;> simp [zeroDest, decodeField, hn, hj, ht]

theorem decode_nillable_roundtrip_witness :
    decodeField pDigits fNick (.null true (.str "al")) (zeroDest fNick) =
      .ok (.opt (some (.str "al"))) :=
  (decode_nillable_roundtrip pDigits fNick (zeroDest fNick) (.str "al")
    (by decide) (by decide) (by decide)).2.2.2

/-! ### The decode-strategy selection (C6)

The template picks a field's decode strategy by nested conditionals on
the `IsJSON`, `Nillable` and `IsTime` predicates.  The spec describes the
same choice as a first-match over the closed, ordered variant list
JSON, NillableTime, NillableOther, Plain. -/

/-- The closed set of decode strategies. -/
inductive Strategy where
  | json
  | nillableTime
  | nillableOther
  | plainScan
  deriving DecidableEq, Repr

/-- Strategy selection as the template's nested conditionals perform it
(`if IsJSON / else if Nillable (if IsTime / else) / else`). -/
def templateStrategy (f : Field) : Strategy :=
  if f.isJSON then .json
  else if f.nillable then
    if f.isTime then .nillableTime else .nillableOther
  else .plainScan

/-- The matching condition of one strategy variant, as used by the spec's
first-match evaluation (earlier variants shadow later ones). -/
def tagPred (f : Field) : Strategy → Bool
  | .json => f.isJSON
  | .nillableTime => f.nillable && f.isTime
  | .nillableOther => f.nillable
  | .plainScan => true

/-- The spec's fixed precedence order over the strategy variants. -/
def specStrategyOrder : List Strategy :=
  [.json, .nillableTime, .nillableOther, .plainScan]

/-- First-match evaluation over an ordered variant list. -/
def firstMatch (f : Field) : List Strategy → Strategy
  | [] => .plainScan
  | t :: ts => if tagPred f t then t else firstMatch f ts

/-- Strategy selection as the spec words it: first match over the fixed
precedence order. -/
def specStrategy (f : Field) : Strategy :=
  firstMatch f specStrategyOrder

/-- The mutually exclusive characterisation of each variant: exactly one
of these holds for any field. -/
def variantApplies (f : Field) : Strategy → Bool
  | .json => f.isJSON
  | .nillableTime => !f.isJSON && (f.nillable && f.isTime)
  | .nillableOther => !f.isJSON && (f.nillable && !f.isTime)
  | .plainScan => !f.isJSON && !f.nillable

/-- C6: the template's nested-conditional strategy choice equals the
spec's first-match over the closed variant list in precedence order
JSON, NillableTime, NillableOther, Plain; exactly one variant applies to
each field; a NillableTime field is assigned from the scanned value with
no validity branch, and a Plain field extracts the wrapper payload with a
result independent of the validity flag. -/
theorem decode_strategy_precedence (f : Field) :
    templateStrategy f = specStrategy f ∧
    specStrategyOrder.countP (variantApplies f) = 1 ∧
    variantApplies f (templateStrategy f) = true ∧
    (templateStrategy f = .nillableTime →
      ∀ (p : Parser) (v : Val) (d : FieldDest),
        decodeField p f (.val v) d = .ok (.opt (some v))) ∧
    (templateStrategy f = .plainScan →
      ∀ (p : Parser) (valid : Bool) (v : Val) (d : FieldDest),
        decodeField p f (.null valid v) d = .ok (.plain v)) := by
  rcases f with ⟨n, j, nl, tm, z⟩
  cases j <;> cases nl <;> cases tm <;>
    refine ⟨by rfl, by rfl, by rfl, ?_, ?_⟩ <;>
    simp [templateStrategy, decodeField]

theorem decode_strategy_precedence_witness :
    decodeField pDigits fUpdated (.val (.time 99)) (zeroDest fUpdated) =
      .ok (.opt (some (.time 99))) :=
  (decode_strategy_precedence fUpdated).2.2.2.1 (by decide) pDigits
    (.time 99) (zeroDest fUpdated)

/-! ### The collection decode (C3) -/

/-- C3: the generated collection decode returns the receiver unchanged
when no rows remain; when every row decodes, it appends the decoded
records to the receiver in cursor iteration order; and on the first
per-row failure it returns that failure, having appended exactly the
records decoded before it. -/
theorem decode_many_abort (p : Parser) (e : Entity) :
    (∀ acc, fromRowsMany p e [] acc = (acc, none)) ∧
    (∀ rows acc,
      (∀ row ∈ rows, (fromRowsOne p e row (zeroRecord e)).2 = none) →
      fromRowsMany p e rows acc =
        (acc ++ rows.map (fun row => (fromRowsOne p e row (zeroRecord e)).1),
         none)) ∧
    (∀ good bad rest acc ε,
      (∀ row ∈ good, (fromRowsOne p e row (zeroRecord e)).2 = none) →
      (fromRowsOne p e bad (zeroRecord e)).2 = some ε →
      fromRowsMany p e (good ++ bad :: rest) acc =
        (acc ++ good.map (fun row => (fromRowsOne p e row (zeroRecord e)).1),
         some ε)) := by
  refine ⟨fun acc => rfl, ?_, ?_⟩
  · intro rows
    induction rows with
    | nil => intro acc h; simp [fromRowsMany]
    | cons row rows ih =>
      intro acc h
      have hhead := h row (List.mem_cons_self _ _)
      have htail : ∀ r ∈ rows, (fromRowsOne p e r (zeroRecord e)).2 = none :=
        fun r hr => h r (List.mem_cons_of_mem _ hr)
      rcases hx : fromRowsOne p e row (zeroRecord e) with ⟨r0, err⟩
      rw [hx] at hhead
      simp at hhead
      subst hhead
      calc fromRowsMany p e (row :: rows) acc
          = fromRowsMany p e rows (acc ++ [r0]) := by
            simp [fromRowsMany, hx]
        _ = (acc ++ [r0] ++
              rows.map (fun row => (fromRowsOne p e row (zeroRecord e)).1),
             none) := ih _ htail
        _ = (acc ++
              (row :: rows).map
                (fun row => (fromRowsOne p e row (zeroRecord e)).1),
             none) := by simp [hx]
  · intro good
    induction good with
    | nil =>
      intro bad rest acc ε _ hbad
      rcases hx : fromRowsOne p e bad (zeroRecord e) with ⟨rb, errb⟩
      rw [hx] at hbad
      simp at hbad
      subst hbad
      simp [fromRowsMany, hx]
    | cons row good ih =>
      intro bad rest acc ε h hbad
      have hhead := h row (List.mem_cons_self _ _)
      have htail : ∀ r ∈ good, (fromRowsOne p e r (zeroRecord e)).2 = none :=
        fun r hr => h r (List.mem_cons_of_mem _ hr)
      rcases hx : fromRowsOne p e row (zeroRecord e) with ⟨r0, err⟩
      rw [hx] at hhead
      simp at hhead
      subst hhead
      calc fromRowsMany p e ((row :: good) ++ bad :: rest) acc
          = fromRowsMany p e (good ++ bad :: rest) (acc ++ [r0]) := by
            simp [fromRowsMany, hx]
        _ = (acc ++ [r0] ++
              good.map (fun row => (fromRowsOne p e row (zeroRecord e)).1),
             some ε) := ih bad rest _ ε htail hbad
        _ = (acc ++
              (row :: good).map
                (fun row => (fromRowsOne p e row (zeroRecord e)).1),
             some ε) := by simp [hx]

/-- Witness rows for the collection decode: two well-formed `User` rows
followed by a row whose JSON column fails to parse. -/
def rowOK1 : List Scanned :=
  [.val (.int 1), .null true (.int 30), .raw [52, 50]]

def rowOK2 : List Scanned :=
  [.val (.int 2), .null true (.int 31), .raw []]

def rowBad : List Scanned :=
  [.val (.int 3), .null true (.int 32), .raw [120]]

theorem decode_many_abort_witness :
    fromRowsMany pDigits eUser [rowOK1, rowOK2, rowBad] [] =
      ([(fromRowsOne pDigits eUser rowOK1 (zeroRecord eUser)).1,
        (fromRowsOne pDigits eUser rowOK2 (zeroRecord eUser)).1],
       some "unmarshal field data: invalid character") := by
  have h := (decode_many_abort pDigits eUser).2.2 [rowOK1, rowOK2] rowBad [] []
    "unmarshal field data: invalid character"
    (by intro row hrow; fin_cases hrow <;> rfl) (by rfl)
  simpa using h

/-! ### Non-atomicity of the single-record decode (C9)

The generated `FromRows` assigns the identifier and then each field in
order, returning at the first failure: the receiver keeps everything
assigned before the failing field. -/

lemma decodeFields_append (p : Parser) (fs1 : List Field) :
    ∀ (fs2 : List Field) (ss1 ss2 : List Scanned) (ds1 ds2 : List FieldDest),
      fs1.length = ss1.length → fs1.length = ds1.length →
      (decodeFields p fs1 ss1 ds1).2 = none →
      decodeFields p (fs1 ++ fs2) (ss1 ++ ss2) (ds1 ++ ds2) =
        ((decodeFields p fs1 ss1 ds1).1 ++ (decodeFields p fs2 ss2 ds2).1,
         (decodeFields p fs2 ss2 ds2).2) := by
  induction fs1 with
  | nil =>
    intro fs2 ss1 ss2 ds1 ds2 h1 h2 _
    have hss : ss1 = [] := List.length_eq_zero.mp h1.symm
    have hds : ds1 = [] := List.length_eq_zero.mp h2.symm
    subst hss; subst hds
    simp [decodeFields]
  | cons f fs1 ih =>
    intro fs2 ss1 ss2 ds1 ds2 h1 h2 hok
    cases ss1 with
    | nil => simp at h1
    | cons s ss1 =>
      cases ds1 with
      | nil => simp at h2
      | cons d ds1 =>
        simp at h1 h2
        cases hd : decodeField p f s d with
        | error msg => simp [decodeFields, hd] at hok
        | ok d1 =>
          simp [decodeFields, hd] at hok
          simp [decodeFields, hd, ih fs2 ss1 ss2 ds1 ds2 h1 h2 hok]

/-- C9: the single-record decode is not atomic on failure.  If the scan
succeeds, a prefix of fields decodes cleanly and the next field's JSON
buffer fails to parse, then `FromRows` returns the parse error while the
receiver already holds the assigned identifier and the decoded prefix;
the failing slot and all later slots keep their previous contents. -/
theorem decode_one_not_atomic (p : Parser) (e : Entity) (s0 : Scanned)
    (bs : List Nat) (ε : String) (pre suf : List Scanned)
    (fpre : List Field) (fbad : Field) (fsuf : List Field)
    (dpre : List FieldDest) (dbad : FieldDest) (dsuf : List FieldDest)
    (r : Record)
    (hf : e.fields = fpre ++ fbad :: fsuf)
    (hl1 : fpre.length = pre.length)
    (hl2 : fpre.length = dpre.length)
    (hr : r.fields = dpre ++ dbad :: dsuf)
    (hok : (decodeFields p fpre pre dpre).2 = none)
    (hshape : shapesOK e (s0 :: (pre ++ Scanned.raw bs :: suf)) = true)
    (hbad : decodeField p fbad (Scanned.raw bs) dbad = .error ε) :
    fromRowsOne p e (s0 :: (pre ++ Scanned.raw bs :: suf)) r =
      ({ id := decodeId e.idIsString s0
         fields := (decodeFields p fpre pre dpre).1 ++ dbad :: dsuf },
       some ε) := by
  rw [fromRowsOne_cons p r hshape, hf, hr,
    decodeFields_append p fpre (fbad :: fsuf) pre (Scanned.raw bs :: suf)
      dpre (dbad :: dsuf) hl1 hl2 hok]
  simp [decodeFields, hbad]

theorem decode_one_not_atomic_witness :
    fromRowsOne pDigits eUser
        [Scanned.val (Val.int 7), Scanned.null true (Val.int 30),
         Scanned.raw [120]] (zeroRecord eUser) =
      ({ id := decodeId eUser.idIsString (Scanned.val (Val.int 7))
         fields :=
           (decodeFields pDigits [fAge] [Scanned.null true (Val.int 30)]
             [FieldDest.plain (Val.int 0)]).1 ++
           [FieldDest.plain (Val.str "")] },
       some "unmarshal field data: invalid character") :=
  decode_one_not_atomic pDigits eUser (.val (.int 7)) [120]
    "unmarshal field data: invalid character"
    [Scanned.null true (Val.int 30)] [] [fAge] fData []
    [FieldDest.plain (Val.int 0)] (FieldDest.plain (Val.str "")) []
    (zeroRecord eUser) (by rfl) (by rfl) (by rfl) (by rfl) (by rfl)
    (by rfl) (by rfl)

/-! ### Identifier type selection (`idType.Set`, C7) -/

/-- Modelled from the spec: the closed set of identifier kinds; the
`field.Type` enumeration lives in the external `field` package, whose
source is not part of the verified tree.  The spec's configuration
surface lists the selector values as
`one of (int32, int64, uint32, uint64, string); default int32-equivalent`. -/
inductive IdKind where
  | int32
  | int64
  | uint32
  | uint64
  | str
  deriving DecidableEq, Repr

/-- Modelled from the spec: the textual spelling of each identifier kind
accepted on the command line (`field.Type.String()` in the source). -/
def idKindName : IdKind → String
  | .int32 => "int32"
  | .int64 => "int64"
  | .uint32 => "uint32"
  | .uint64 => "uint64"
  | .str => "string"

/-- The five accepted spellings, in the switch order of `idType.Set`. -/
def validIdNames : List String :=
  [idKindName .int32, idKindName .int64, idKindName .uint32,
   idKindName .uint64, idKindName .str]

/-- `idType.Set`: the switch over the five accepted spellings; anything
else yields the `invalid type` configuration error. -/
def idTypeSet (s : String) : Except String IdKind :=
  if s = idKindName .int32 then .ok .int32
  else if s = idKindName .int64 then .ok .int64
  else if s = idKindName .uint32 then .ok .uint32
  else if s = idKindName .uint64 then .ok .uint64
  else if s = idKindName .str then .ok .str
  else .error "invalid type"

/-- The `idtype` flag's declared default (`idType(field.TypeInt)`), the
spec's int32-equivalent kind. -/
def idTypeDefault : IdKind := .int32

/-- Errors of the `generate` command pipeline: a flag/configuration error
(raised while flags are parsed, before `Run` executes) or a schema
loading error (raised by `loadGraph` inside `Run`). -/
inductive CmdError where
  | config (msg : String)
  | schema (msg : String)
  deriving DecidableEq, Repr

/-- The `generate` command pipeline: the flag library parses flags
(invoking `idType.Set` for a supplied `--idtype`) before `Run` executes,
and `Run` then loads the schema graph.  The schema loader is passed in as
an oracle so the theorem can state that a configuration failure is
returned whatever the loader would have done. -/
def runGenerate (idArg : Option String) (loadSchema : Except String Nat) :
    Except CmdError (IdKind × Nat) :=
  let parsed : Except CmdError IdKind :=
    match idArg with
    | none => .ok idTypeDefault
    | some s =>
      match idTypeSet s with
      | .ok k => .ok k
      | .error e => .error (.config e)
  match parsed with
  | .error e => .error e
  | .ok k =>
    match loadSchema with
    | .error e => .error (.schema e)
    | .ok g => .ok (k, g)

/-- C7: `idType.Set` accepts exactly the five identifier-kind spellings,
stores the matching kind, rejects everything else with the configuration
error, and an invalid spelling makes the generate pipeline fail with a
ConfigError regardless of what schema loading would return (so before any
schema loading); the default kind is the int32-equivalent one. -/
theorem idtype_set_closed (s : String) :
    ((idTypeSet s).isOk = true ↔ s ∈ validIdNames) ∧
    (∀ k, idTypeSet s = .ok k → s = idKindName k) ∧
    (s ∉ validIdNames →
      idTypeSet s = .error "invalid type" ∧
      ∀ load, runGenerate (some s) load = .error (.config "invalid type")) ∧
    (∀ g : Nat, runGenerate none (.ok g) = .ok (idTypeDefault, g)) ∧
    idTypeDefault = .int32 ∧
    (∀ (k : IdKind) (g : Nat),
      runGenerate (some (idKindName k)) (.ok g) = .ok (k, g)) := by
  refine ⟨?_, ?_, ?_, fun g => rfl, rfl, ?_⟩
  · unfold idTypeSet
    split_ifs <;> simp_all [validIdNames, idKindName, Except.isOk, Except.toBool]
  · intro k
    unfold idTypeSet
    split_ifs <;> simp_all
  · intro hnot
    have hset : idTypeSet s = .error "invalid type" := by
      unfold idTypeSet
      split_ifs with h1 h2 h3 h4 h5
      · exact absurd (by simp [validIdNames, h1]) hnot
      · exact absurd (by simp [validIdNames, h2]) hnot
      · exact absurd (by simp [validIdNames, h3]) hnot
      · exact absurd (by simp [validIdNames, h4]) hnot
      · exact absurd (by simp [validIdNames, h5]) hnot
      · rfl
    exact ⟨hset, fun load => by simp [runGenerate, hset]⟩
  · intro k g
    cases k <;> rfl

theorem idtype_set_closed_witness :
    runGenerate (some "float64") (Except.ok 3) =
      .error (.config "invalid type") :=
  (((idtype_set_closed "float64").2.2.1 (by decide)).2 (Except.ok 3))

/-! ### External template loading (`loadTemplate`, C8) -/

/-- One template definition: its registered name and an opaque body tag
(distinct tags stand for distinct parse trees). -/
abbrev TmplDef := String × Nat

/-- The template registry (`*template.Template` and its associated
templates), as a name-keyed mapping. -/
abbrev TmplReg := List TmplDef

/-- Redefinition semantics of `Template.Parse` / `Template.AddParseTree`:
a definition for an already-registered name replaces it, a new name is
added. -/
def addDef (t : TmplReg) (d : TmplDef) : TmplReg :=
  if t.any (fun x => x.1 = d.1) then
    t.map (fun x => if x.1 = d.1 then d else x)
  else t ++ [d]

/-- Parsing one file's definitions into the registry, in file order. -/
def loadFileDefs (t : TmplReg) (ds : List TmplDef) : TmplReg :=
  ds.foldl addDef t

/-- One path argument of `loadTemplate`: a plain file (the template
definitions it parses to) or a directory (its entries, each a named file
with its definitions; `ioutil.ReadDir` reports them sorted by name). -/
inductive TmplSrc where
  | file (defs : List TmplDef)
  | dir (entries : List (String × List TmplDef))
  deriving DecidableEq, Repr

/-- `loadTemplate`, faithful to the source: a file path is parsed into
the accumulated registry; for a directory the source builds the path list
for the recursive call as `filepath.Join(path, infos[0].Name())` at every
index, so the directory's first entry is loaded `len(infos)` times into a
fresh registry whose definitions are then merged in — the remaining
entries are never read. -/
def loadTemplate (t : TmplReg) : List TmplSrc → TmplReg
  | [] => t
  | .file ds :: rest => loadTemplate (loadFileDefs t ds) rest
  | .dir [] :: rest => loadTemplate t rest
  | .dir (e0 :: es) :: rest =>
    let inner := (List.replicate (e0 :: es).length e0.2).foldl loadFileDefs []
    loadTemplate (loadFileDefs t inner) rest

/-- The failing directory: two files, the second defining a template the
first does not. -/
def dirAB : TmplSrc :=
  .dir [("a.tmpl", [("header", 1)]), ("b.tmpl", [("footer", 2)])]

/-- C8 at the failing input: loading a directory with files `a.tmpl`
(defining `header`) and `b.tmpl` (defining `footer`) yields a registry
holding only `a.tmpl`'s definitions; no definition of `b.tmpl` is ever
merged, contradicting the claim that every file directly inside the
directory is loaded. -/
theorem loadTemplate_dir_first_entry_only :
    loadTemplate [] [dirAB] = [("header", 1)] ∧
    (∀ d ∈ loadTemplate [] [dirAB], d.1 ≠ "footer") ∧
    loadTemplate [] [.file [("header", 1)], .file [("footer", 2)]] =
      [("header", 1), ("footer", 2)] := by
  refine ⟨by decide, by decide, by decide⟩

/-! ### The `init` command's argument validator (C10) -/

/-- Outcome of running the validator over the argument list: acceptance,
a returned validation error, or a runtime panic. -/
inductive ArgsOutcome where
  | ok
  | err (msg : String)
  | panicked (msg : String)
  deriving DecidableEq, Repr

/-- `unicode.IsUpper` applied to `rune(name[0])`, i.e. to a single byte
promoted to a code point in 0–255: the ASCII uppercase letters and the
Latin-1 uppercase letters (U+00C0–U+00D6 and U+00D8–U+00DE). -/
def isUpperLatin1 (b : Nat) : Bool :=
  (65 ≤ b && b ≤ 90) || (192 ≤ b && b ≤ 214) || (216 ≤ b && b ≤ 222)

/-- The `init` command's `Args` validator over the supplied schema names
(each a Go string, modelled as its byte list): for each name in order it
evaluates `name[0]` — a panic when the name is empty — and returns the
validation error when that byte is not an uppercase letter. -/
def initArgsCheck : List (List Nat) → ArgsOutcome
  | [] => .ok
  | name :: rest =>
    match name with
    | [] => .panicked "runtime error: index out of range"
    | b :: _ =>
      if isUpperLatin1 b then initArgsCheck rest
      else .err "schema names must begin with uppercase"

/-- Names whose first byte passes the uppercase check are skipped by the
validator's loop. -/
lemma initArgsCheck_skip :
    ∀ (pre suf : List (List Nat)),
      (∀ n ∈ pre, ∃ b bs, n = b :: bs ∧ isUpperLatin1 b = true) →
      initArgsCheck (pre ++ suf) = initArgsCheck suf := by
  intro pre
  induction pre with
  | nil => intro suf _; rfl
  | cons n pre ih =>
    intro suf h
    obtain ⟨b, bs, hn, hb⟩ := h n (List.mem_cons_self _ _)
    subst hn
    simpa [initArgsCheck, hb] using
      ih suf (fun m hm => h m (List.mem_cons_of_mem _ hm))

/-- C10 counterexample: the argument list `["x", ""]` contains the empty
string, yet the validator returns the uppercase validation error (the
invalid `"x"` is rejected before the empty name is reached), not a
panic — refuting the claim that every argument list containing the empty
string panics. -/
theorem init_args_empty_counterexample :
    ([] ∈ [[120], ([] : List Nat)]) ∧
    initArgsCheck [[120], []] = .err "schema names must begin with uppercase" ∧
    ∀ m, initArgsCheck [[120], []] ≠ .panicked m := by
  refine ⟨by decide, by decide, ?_⟩
  intro m h
  rw [show initArgsCheck [[120], []] =
      .err "schema names must begin with uppercase" from by decide] at h
  exact ArgsOutcome.noConfusion h

/-- C10 (amended): the validator reads each name's first byte without a
non-emptiness check, so it panics with an index-out-of-range exactly when
it reaches an empty name — that is, when an empty name is preceded only
by names whose first byte passes the uppercase check; a non-empty name
whose first byte fails the check makes it return the validation error at
that point, and a passing name lets the loop continue. -/
theorem init_args_validator (pre suf : List (List Nat))
    (hpre : ∀ n ∈ pre, ∃ b bs, n = b :: bs ∧ isUpperLatin1 b = true) :
    initArgsCheck (pre ++ [] :: suf) =
      .panicked "runtime error: index out of range" ∧
    (∀ b bs, isUpperLatin1 b = false →
      initArgsCheck (pre ++ (b :: bs) :: suf) =
        .err "schema names must begin with uppercase") ∧
    (∀ b bs, isUpperLatin1 b = true →
      initArgsCheck (pre ++ (b :: bs) :: suf) = initArgsCheck suf) ∧
    (∀ b bs, initArgsCheck [b :: bs] =
      .err "schema names must begin with uppercase" ↔ isUpperLatin1 b = false) := by
  refine ⟨?_, ?_, ?_, ?_⟩
  · rw [initArgsCheck_skip pre ([] :: suf) hpre]
    rfl
  · intro b bs hb
    rw [initArgsCheck_skip pre ((b :: bs) :: suf) hpre]
    simp [initArgsCheck, hb]
  · intro b bs hb
    rw [initArgsCheck_skip pre ((b :: bs) :: suf) hpre]
    simp [initArgsCheck, hb]
  · intro b bs
    constructor
    · intro h
      by_contra hb
      have hb' : isUpperLatin1 b = true := by
        revert hb; cases isUpperLatin1 b <;> simp
      simp [initArgsCheck, hb'] at h
    · intro hb
      simp [initArgsCheck, hb]

theorem init_args_validator_witness :
    initArgsCheck [[85], [], [66]] =
      .panicked "runtime error: index out of range" :=
  (init_args_validator [[85]] [[66]]
    (fun n hn => by
      simp at hn
      subst hn
      exact ⟨85, [], rfl, by decide⟩)).1

end Ent
